import Mathlib

/-!
Shallow embedding of the core of the `siem_fuzzer` repository
(`src/fuzzer/validator.py`, `src/fuzzer/seed_store.py`, `src/fuzzer/mab/bandit.py`,
`src/fuzzer/reward_engine.py`, `src/fuzzer/operator_registry.py`,
`src/fuzzer/generator.py`) together with theorems settling the specification
claims about it.

Conventions of the embedding:
* Python strings are embedded as `List Char`; `chars` converts a Lean string
  literal to that representation.
* Python floats are embedded as exact rationals (`ℚ`); the numeric claims are
  about the algebra of the update formulas, not about rounding.
* Python dictionaries keyed by strings (the bandit's `q`/`n` tables) are
  embedded as total functions, since every claim touches only keys that were
  inserted at construction time.
* Fallible operations (`raise ValueError`) are embedded with `Except`;
  randomness is embedded by passing the random draws explicitly.
* Recursions that walk a string while skipping over a matched pattern are
  written with an explicit fuel argument equal to the string length, so that
  every definition is structurally recursive and evaluates by kernel reduction.
-/

namespace SiemFuzzer

/-- Convert a Lean string literal to the `List Char` representation used for
Python strings throughout this embedding. -/
def chars (s : String) : List Char := s.toList

/-- Whitespace test of Python's `str` regexes and `str.strip` restricted to
ASCII: space, tab, newline, carriage return, vertical tab, form feed. -/
def pyIsSpace (c : Char) : Bool :=
  c = ' ' || c = '\t' || c = '\n' || c = '\r' || c = '\x0b' || c = '\x0c'

/-- Word-character test of the regex class `\w` restricted to ASCII:
letters, digits and underscore.  All payloads and patterns in the claims are
ASCII. -/
def isWordChar (c : Char) : Bool := c.isAlphanum || c = '_'

/-- Substring containment, Python's `pat in s` for strings. -/
def containsSub (pat : List Char) : List Char → Bool
  | [] => pat.isEmpty
  | c :: cs => pat.isPrefixOf (c :: cs) || containsSub pat cs

/-- Fuel-driven worker for `collapseWs`; the fuel is an upper bound on the
number of characters still to be consumed. -/
def collapseWsGo : Nat → List Char → List Char
  | 0, s => s
  | _ + 1, [] => []
  | fuel + 1, c :: cs =>
    if pyIsSpace c then ' ' :: collapseWsGo fuel (cs.dropWhile pyIsSpace)
    else c :: collapseWsGo fuel cs

/-- Replace every maximal run of whitespace by a single space:
Python's `re.sub(r"\s+", " ", s)` from `canonicalize_payload` in
`src/fuzzer/validator.py`. -/
def collapseWs (s : List Char) : List Char := collapseWsGo s.length s

/-- Remove leading and trailing whitespace: Python's `str.strip()`. -/
def stripWs (s : List Char) : List Char :=
  ((s.dropWhile pyIsSpace).reverse.dropWhile pyIsSpace).reverse

/-- Embedding of `canonicalize_payload` (`src/fuzzer/validator.py`):
remove every caret, collapse whitespace runs to single spaces, strip the
ends, and lowercase.  `p.replace("^", "")` removes every caret character,
which is the filter below; lowercasing is ASCII `Char.toLower`. -/
def canonicalize_payload (p : List Char) : List Char :=
  let p1 := p.filter (fun c => c ≠ '^')
  (stripWs (collapseWs p1)).map Char.toLower

/-- True when the remainder of the string starts a regex word boundary for a
match that just ended in a word character: either the end of the string or a
non-word character (the semantics of a trailing `\b`). -/
def wordEndOk : List Char → Bool
  | [] => true
  | c :: _ => !isWordChar c

/-- Fuel-driven worker for `subWordEnd`: scan left to right; whenever `pat`
matches and is followed by a word boundary, emit `rep` and continue after the
matched text (replacements are not rescanned, as in `re.sub`). -/
def subWordEndGo (pat rep : List Char) : Nat → List Char → List Char
  | 0, s => s
  | _ + 1, [] => []
  | fuel + 1, c :: cs =>
    if pat ≠ [] && pat.isPrefixOf (c :: cs) && wordEndOk ((c :: cs).drop pat.length) then
      rep ++ subWordEndGo pat rep fuel ((c :: cs).drop pat.length)
    else c :: subWordEndGo pat rep fuel cs

/-- Embedding of `re.sub(literal + r"\b", rep, s)` for a literal pattern
ending in a word character, as used by `_normalize_for_matching`. -/
def subWordEnd (pat rep s : List Char) : List Char := subWordEndGo pat rep s.length s

/-- Embedding of `Validator._normalize_for_matching`
(`src/fuzzer/validator.py`): lowercase, then apply the PowerShell flag alias
substitutions in source order.  The input pattern flags are lowercase and the
string was just lowercased, so the `re.IGNORECASE` flag of the source is
immaterial. -/
def normalize_for_matching (p : List Char) : List Char :=
  let n0 := p.map Char.toLower
  let n1 := subWordEnd (chars "-noninteractive") (chars "-noni") n0
  let n2 := subWordEnd (chars "-noni") (chars "-noni") n1
  let n3 := subWordEnd (chars "-executionpolicy") (chars "-ep") n2
  subWordEnd (chars "-ep") (chars "-ep") n3

/-- The value found at `constraints["must_contain_keyword"]`, which the
`Validator` constructor inspects by Python type: absent, a string, a list of
strings, or some other value. -/
inductive KeywordField
  | absent
  | strVal (s : List Char)
  | listVal (ks : List (List Char))
  | otherVal

/-- The constraint fields that `Validator.__init__` reads from
`grammar["rules"]["payload_core"]["constraints"]`.  The positive regex is
embedded as an abstract search predicate (the result of
`re.search(regex, ·, re.IGNORECASE)` viewed as a Boolean); a falsy (absent or
empty) regex is `none`. -/
structure CoreConstraints where
  must_contain_keyword : KeywordField
  must_contain_all : Option (List (List Char))
  regex_positive : Option (List Char → Bool)

/-- The state a `Validator` instance carries after `__init__`. -/
structure Validator where
  keywords : List (List Char)
  regex : Option (List Char → Bool)

/-- Embedding of `Validator.__init__` (`src/fuzzer/validator.py`): normalize
the keyword constraint to a list (an empty string or empty list is falsy and
yields no keywords), extend with a truthy `must_contain_all` list, and remove
duplicates.  The source deduplicates with `list(set(...))`, whose iteration
order is unspecified; `dedup` is used here, and no claim depends on the
order of `keywords`. -/
def mkValidator (c : CoreConstraints) : Validator :=
  let kws0 : List (List Char) :=
    match c.must_contain_keyword with
    | .absent => []
    | .strVal s => if s = [] then [] else [s]
    | .listVal ks => if ks = [] then [] else ks
    | .otherVal => []
  let kws1 : List (List Char) :=
    match c.must_contain_all with
    | some l => if l = [] then kws0 else kws0 ++ l
    | none => kws0
  ⟨kws1.dedup, c.regex_positive⟩

/-- Embedding of `Validator.quick_check` (`src/fuzzer/validator.py`): short
circuit to true when there are no keywords, otherwise require every keyword
to occur in the canonicalized-and-alias-normalized core. -/
def quick_check (v : Validator) (core : List Char) : Bool :=
  if v.keywords.isEmpty then true
  else
    let canon := canonicalize_payload core
    let canon_norm := normalize_for_matching canon
    v.keywords.all (fun k => containsSub k canon_norm)

/-- Embedding of `Validator.full_check` (`src/fuzzer/validator.py`): fail on
over-length payloads, then require every keyword in the normalized canonical
form, then check the positive regex (when configured) against the canonical
form. -/
def full_check (v : Validator) (payload : List Char) (max_len : Nat) : Bool :=
  if max_len < payload.length then false
  else
    let canon := canonicalize_payload payload
    let canon_norm := normalize_for_matching canon
    if v.keywords.all (fun k => containsSub k canon_norm) then
      match v.regex with
      | some search => search canon
      | none => true
    else false

/-- Decimal digit characters of a natural number, with explicit fuel (one
unit per digit suffices; `n + 1` is always enough). -/
def natToCharsGo : Nat → Nat → List Char
  | 0, _ => []
  | fuel + 1, n =>
    if n < 10 then [Char.ofNat (48 + n)]
    else natToCharsGo fuel (n / 10) ++ [Char.ofNat (48 + n % 10)]

/-- Python's `str(n)` for a non-negative integer. -/
def natToChars (n : Nat) : List Char := natToCharsGo (n + 1) n

/-- The generated seed identifier `f"seed_{k}"`. -/
def mkId (k : Nat) : List Char := chars "seed_" ++ natToChars k

/-- Embedding of the `Seed` dataclass (`src/fuzzer/seed_store.py`). -/
structure Seed where
  id : List Char
  string : List Char
  q_s : ℚ
  n_s : Nat
  invalid_count : Nat
  cluster_id : Option Int
  last_used : Nat
deriving DecidableEq

/-- A seed record passed to `SeedStore.__init__` as a dict; optional fields
are `none` when absent. -/
structure SeedDict where
  id : Option (List Char)
  string : List Char
  q_s : Option ℚ
  n_s : Option Nat
  invalid_count : Option Nat
  cluster_id : Option Int
  last_used : Option Nat

/-- The seed built for the plain-string branch of `SeedStore.__init__`
at position `i` (0-based): id `f"seed_{i+1}"` and default statistics. -/
def seedOfString (i : Nat) (s : List Char) : Seed :=
  ⟨mkId (i + 1), s, 1/10, 0, 0, none, 0⟩

/-- The seed built for one dict record in `SeedStore.__init__`, where `count`
is the number of seeds already appended (`len(self.seeds)`); a missing id
defaults to `f"seed_{count+1}"`. -/
def seedOfDict (count : Nat) (d : SeedDict) : Seed :=
  ⟨d.id.getD (mkId (count + 1)), d.string, d.q_s.getD (1/10), d.n_s.getD 0,
   d.invalid_count.getD 0, d.cluster_id, d.last_used.getD 0⟩

/-- The two accepted shapes of the `seeds` argument of `SeedStore.__init__`
(the source decides between them by `isinstance(seeds[0], dict)`). -/
inductive SeedsInput
  | strs (l : List (List Char))
  | dicts (l : List SeedDict)

/-- Sequential construction of the seed list from dict records, threading the
current length for default-id generation, mirroring the append loop of
`SeedStore.__init__`. -/
def mkSeedsFromDicts : List Seed → List SeedDict → List Seed
  | acc, [] => acc
  | acc, d :: rest => mkSeedsFromDicts (acc ++ [seedOfDict acc.length d]) rest

/-- Embedding of `SeedStore.__init__` (`src/fuzzer/seed_store.py`): an empty
input yields an empty store; a list of strings is enumerated with generated
ids; a list of dict records is appended sequentially. -/
def mkSeedStore : SeedsInput → List Seed
  | .strs l => l.enum.map (fun p => seedOfString p.1 p.2)
  | .dicts l => mkSeedsFromDicts [] l

/-- Python's `max(seeds, key=lambda s: s.q_s)` over a list: the first seed
with maximal `q_s` (a later seed replaces the current best only when strictly
greater). -/
def maxByQ (l : List Seed) : Option Seed :=
  l.foldl (fun acc s =>
    match acc with
    | none => some s
    | some b => if b.q_s < s.q_s then some s else some b) none

/-- Embedding of `SeedStore.select_seed_epsilon` (`src/fuzzer/seed_store.py`).
The random draw `rng.random() < eps` is passed in as `explore`, and the
uniform index drawn by `rng.choice` as `pickIdx`.  Selecting from an empty
store raises `ValueError("No seeds available")`, embedded as `Except.error`. -/
def select_seed_epsilon (seeds : List Seed) (explore : Bool) (pickIdx : Nat) :
    Except String Seed :=
  match seeds with
  | [] => .error "No seeds available"
  | s0 :: rest =>
    if explore then .ok ((s0 :: rest).getD (pickIdx % (rest.length + 1)) s0)
    else .ok ((maxByQ (s0 :: rest)).getD s0)

/-- Embedding of `SeedStore.update_seed` (`src/fuzzer/seed_store.py`): find
the first seed with the given id, increment its pull count and move its `q_s`
by the incremental-mean step `(reward - q_s) / n_s` with the incremented
count; the loop breaks after the first match, and a store without the id is
returned unchanged (the source raises nothing). -/
def update_seed : List Seed → List Char → ℚ → List Seed
  | [], _, _ => []
  | s :: rest, sid, reward =>
    if s.id = sid then
      ⟨s.id, s.string, s.q_s + (reward - s.q_s) / ((s.n_s : ℚ) + 1), s.n_s + 1,
       s.invalid_count, s.cluster_id, s.last_used⟩ :: rest
    else s :: update_seed rest sid reward

/-- Embedding of `SeedStore.boost_seed` (`src/fuzzer/seed_store.py`): pull
the first matching seed's `q_s` toward 1 by `(1 - q_s) * scale`; unknown ids
leave the store unchanged (the source raises nothing). -/
def boost_seed : List Seed → List Char → ℚ → List Seed
  | [], _, _ => []
  | s :: rest, sid, scale =>
    if s.id = sid then
      ⟨s.id, s.string, s.q_s + (1 - s.q_s) * scale, s.n_s,
       s.invalid_count, s.cluster_id, s.last_used⟩ :: rest
    else s :: boost_seed rest sid scale

/-- Embedding of `EpsilonGreedyBandit` state (`src/fuzzer/mab/bandit.py`):
the Python dicts `q` and `n` are embedded as total functions, since all
claims touch only arms present at construction. -/
structure Bandit where
  arms : List String
  q : String → ℚ
  n : String → Nat

/-- Embedding of `EpsilonGreedyBandit.__init__`: every arm starts at the
prior `q_init` with pull count 0. -/
def mkBandit (arms : List String) (q_init : ℚ) : Bandit :=
  ⟨arms, fun _ => q_init, fun _ => 0⟩

/-- Embedding of `EpsilonGreedyBandit.update` (`src/fuzzer/mab/bandit.py`):
increment the arm's count, then move `q` by `(reward - q) / n` with the
incremented count. -/
def Bandit.update (b : Bandit) (arm : String) (reward : ℚ) : Bandit :=
  ⟨b.arms,
   fun a => if a = arm then b.q arm + (reward - b.q arm) / ((b.n arm : ℚ) + 1) else b.q a,
   fun a => if a = arm then b.n arm + 1 else b.n a⟩

/-- The four reward weights of `RewardEngine` (`src/fuzzer/reward_engine.py`). -/
structure Weights where
  w_bypass : ℚ
  w_similarity : ℚ
  w_novelty : ℚ
  w_invalid : ℚ

/-- The default weight configuration of `RewardEngine.__init__`. -/
def default_weights : Weights := ⟨6/10, 25/100, 1/10, 3/10⟩

/-- Embedding of `RewardEngine.compute` (`src/fuzzer/reward_engine.py`):
weighted sum of bypass, dissimilarity and novelty, minus the invalid penalty
when invalid, then clamped to `[-1, 1]` by the two source conditionals. -/
def compute (w : Weights) (detected : Bool) (similarity novelty : ℚ) (invalid : Bool) : ℚ :=
  let bypass : ℚ := if detected then 0 else 1
  let r0 := w.w_bypass * bypass + w.w_similarity * (1 - similarity) + w.w_novelty * novelty
  let r1 := if invalid then r0 - w.w_invalid else r0
  let r2 := if r1 > 1 then 1 else r1
  if r2 < -1 then -1 else r2

/-- The executable names scanned by `OperatorRegistry._apply_omission`
(`src/fuzzer/operator_registry.py`), in source order. -/
def executables : List (List Char) :=
  [chars "schtasks.exe", chars "net.exe", chars "sc.exe", chars "powershell.exe",
   chars "cmd.exe", chars "wmic.exe", chars "cscript.exe"]

/-- Fuel-driven worker for `replaceAll`; consumes at least one character of
the subject per step when the pattern is nonempty. -/
def replaceAllGo (pat rep : List Char) : Nat → List Char → List Char
  | 0, s => s
  | _ + 1, [] => []
  | fuel + 1, c :: cs =>
    if pat ≠ [] && pat.isPrefixOf (c :: cs) then
      rep ++ replaceAllGo pat rep fuel ((c :: cs).drop pat.length)
    else c :: replaceAllGo pat rep fuel cs

/-- Python's `s.replace(pat, rep)` for a nonempty pattern: replace all
non-overlapping occurrences left to right, never rescanning replacements
(every pattern used in the source is nonempty). -/
def replaceAll (s pat rep : List Char) : List Char := replaceAllGo pat rep s.length s

/-- Embedding of `OperatorRegistry._apply_omission`
(`src/fuzzer/operator_registry.py`): find the first listed executable name
occurring in the lowercased payload, and replace every case-sensitive
occurrence of that name by the name with its ".exe" suffix removed
(`exe.replace(".exe", "")`); the loop breaks after the first hit. -/
def apply_omission (payload : List Char) : List Char :=
  match executables.find? (fun exe => containsSub exe (payload.map Char.toLower)) with
  | some exe => replaceAll payload exe (replaceAll exe (chars ".exe") [])
  | none => payload

/-- The candidate splits of a greedy `\d{1,3}` at the start of `s`, in the
backtracking order of the regex engine: three digits first, then two, then
one. -/
def octetCandidates (s : List Char) : List (List Char × List Char) :=
  let run := (s.takeWhile Char.isDigit).length
  let ks := (if 3 ≤ run then [3] else []) ++ (if 2 ≤ run then [2] else []) ++
            (if 1 ≤ run then [1] else [])
  ks.map (fun k => (s.take k, s.drop k))

/-- Match the regex `\d{1,3}\.\d{1,3}\.\d{1,3}\.\d{1,3}\b` at the start of
`s`, with the greedy-backtracking semantics of `re`, returning the matched
text. -/
def matchIpAt (s : List Char) : Option (List Char) :=
  (octetCandidates s).findSome? (fun c0 =>
    match c0.2 with
    | '.' :: r1 =>
      (octetCandidates r1).findSome? (fun c1 =>
        match c1.2 with
        | '.' :: r2 =>
          (octetCandidates r2).findSome? (fun c2 =>
            match c2.2 with
            | '.' :: r3 =>
              (octetCandidates r3).findSome? (fun c3 =>
                if wordEndOk c3.2 then
                  some (c0.1 ++ '.' :: (c1.1 ++ '.' :: (c2.1 ++ '.' :: c3.1)))
                else none)
            | _ => none)
        | _ => none)
    | _ => none)

/-- Scan for the leftmost match of the IPv4 regex of `_apply_recoding`,
honoring the leading `\b`: a match may start only at the string start or
after a non-word character (`prevWord` tracks the previous character). -/
def findFirstIpGo : Bool → List Char → Option (List Char)
  | _, [] => none
  | prevWord, c :: cs =>
    if prevWord then findFirstIpGo (isWordChar c) cs
    else
      match matchIpAt (c :: cs) with
      | some ip => some ip
      | none => findFirstIpGo (isWordChar c) cs

/-- The first match of `r"\b\d{1,3}\.\d{1,3}\.\d{1,3}\.\d{1,3}\b"` in `s`. -/
def findFirstIp (s : List Char) : Option (List Char) := findFirstIpGo false s

/-- Python's `int(·)` on a non-empty string of decimal digits. -/
def parseNat (ds : List Char) : Nat := ds.foldl (fun n c => 10 * n + (c.toNat - 48)) 0

/-- The decimal value `(o0 << 24) + (o1 << 16) + (o2 << 8) + o3` computed by
`_apply_recoding` from `ip.split('.')`; out-of-range indices (impossible for
a matched IPv4 text) read as 0. -/
def ipValue (ip : List Char) : Nat :=
  let os := (ip.splitOn '.').map parseNat
  ((os.getD 0 0) <<< 24) + ((os.getD 1 0) <<< 16) + ((os.getD 2 0) <<< 8) + os.getD 3 0

/-- Embedding of `OperatorRegistry._apply_recoding`
(`src/fuzzer/operator_registry.py`): the source collects `re.findall`
matches and breaks after processing the first, so only the leftmost match is
replaced; every occurrence of that matched text is replaced by its decimal
value (`payload.replace(ip, str(decimal))`). -/
def apply_recoding (payload : List Char) : List Char :=
  match findFirstIp payload with
  | some ip => replaceAll payload ip (natToChars (ipValue ip))
  | none => payload

/-- The names of the five evasion techniques registered in
`OperatorRegistry.__init__`. -/
def evasionNames : List (List Char) :=
  [chars "insertion", chars "substitution", chars "omission",
   chars "reordering", chars "recoding"]

/-- Sample heuristic: the declarative sample contains a caret. -/
def sampleHasCaret (sample : List Char) : Bool := sample.contains '^'

/-- Sample heuristic: the declarative sample is fully quoted (starts and ends
with a double quote, length at least 2). -/
def sampleFullyQuoted (sample : List Char) : Bool :=
  2 ≤ sample.length && sample.head? = some '"' && sample.getLast? = some '"'

/-- Sample heuristic: the declarative sample is all-uppercase in the sense of
Python's `str.isupper()` — it has at least one letter and no lowercase
letter. -/
def sampleAllUpper (sample : List Char) : Bool :=
  sample.any Char.isAlpha && sample.all (fun c => !c.isLower)

/-- The whitespace prefix before the first token of a payload. -/
def firstTokenPre (p : List Char) : List Char := p.takeWhile pyIsSpace

/-- The first whitespace-delimited token of a payload (the embedding's
reading of the spec's "first executable-like token": the command position). -/
def firstToken (p : List Char) : List Char :=
  (p.dropWhile pyIsSpace).takeWhile (fun c => !pyIsSpace c)

/-- Everything after the first whitespace-delimited token. -/
def afterFirstToken (p : List Char) : List Char :=
  (p.dropWhile pyIsSpace).dropWhile (fun c => !pyIsSpace c)

/-- Rewrite the first token of a payload by `f`, leaving a payload with no
first token unchanged. -/
def onFirstToken (f : List Char → List Char) (p : List Char) : List Char :=
  if firstToken p = [] then p
  else firstTokenPre p ++ f (firstToken p) ++ afterFirstToken p

/-- Insert a caret inside a token, after its first character. -/
def caretInsert : List Char → List Char
  | [] => []
  | c :: cs => c :: '^' :: cs

/-- Wrap a token in double quotes. -/
def quoteWrap (t : List Char) : List Char := '"' :: (t ++ ['"'])

/-- Uppercase a token (ASCII). -/
def upperTok (t : List Char) : List Char := t.map Char.toUpper

/-- Modelled from the spec: the traditional pattern-based operator
application of `OperatorRegistry.apply_operator`, whose body is elided in
`src/fuzzer/operator_registry.py` behind the comment
"...existing code for traditional operators...".  Per the spec, the
transformation dispatches purely on the operator's declarative sample:
caret present — insert a caret inside the first executable-like token;
fully quoted sample — wrap the first executable-like token in quotes;
all-uppercase sample — uppercase the first executable-like token; and when
no heuristic matches, the operator is a no-op. -/
def apply_pattern_operator (sample payload : List Char) : List Char :=
  if sampleHasCaret sample then onFirstToken caretInsert payload
  else if sampleFullyQuoted sample then onFirstToken quoteWrap payload
  else if sampleAllUpper sample then onFirstToken upperTok payload
  else payload

/-- Embedding of `OperatorRegistry.apply_operator`
(`src/fuzzer/operator_registry.py`): an operator name registered as an
evasion technique dispatches to the corresponding technique function (three
of the five draw randomness, so the technique table is passed as an oracle
`evasion`; `apply_omission` and `apply_recoding` above are its concrete
deterministic entries); any other operator falls through to the traditional
pattern-based application, modelled from the spec by
`apply_pattern_operator`. -/
def apply_operator (evasion : List Char → List Char → List Char)
    (op_name sample payload : List Char) : List Char :=
  if op_name ∈ evasionNames then evasion op_name payload
  else apply_pattern_operator sample payload

/-- The fields of the record returned by `PayloadGenerator.generate_one`
that the claims are about, together with the updated mutable state (the
successful corpus, the seed store, and the operator bandit). -/
structure GenResult where
  payload : List Char
  valid : Bool
  detected : Bool
  similarity : ℚ
  reward : ℚ
  corpus : List (List Char)
  store : List Seed
  bandit : Bandit

/-- Embedding of the feedback part of `PayloadGenerator.generate_one`
(`src/fuzzer/generator.py`): the seed-selection/mutation/wrapper pipeline is
summarized by its outputs (`payload`, the id `sid` of the selected seed, and
the `applied` group names), and process execution and the SIEM are oracles
`execOk` and `siem` (detected flag and similarity).  The body mirrors the
source: `full_check` against the maximum length; execution only when the
syntax is valid; SIEM analysis only on successful execution (`detected` and
`similarity` keep their defaults `False` / `0.0` otherwise); reward from
`RewardEngine.compute` with novelty fixed at 1; seed update; bandit update
for each distinct applied arm the bandit knows; and promotion of the payload
into `corpus_successful` with a seed boost of 0.5 exactly when execution
succeeded and the SIEM did not detect it. -/
def generate_one (v : Validator) (max_len : Nat)
    (execOk : List Char → Bool) (siem : List Char → Bool × ℚ)
    (store : List Seed) (sid : List Char) (applied : List String)
    (b : Bandit) (corpus : List (List Char)) (payload : List Char) : GenResult :=
  let validFlag := full_check v payload max_len
  let exec_success := validFlag && execOk payload
  let detected := exec_success && (siem payload).1
  let similarity : ℚ := if exec_success then (siem payload).2 else 0
  let is_invalid := !validFlag || !exec_success
  let reward := compute default_weights detected similarity 1 is_invalid
  let store1 := update_seed store sid reward
  let b1 := applied.dedup.foldl
    (fun acc g => if g ∈ acc.arms then acc.update g reward else acc) b
  let promoted := exec_success && !detected
  let corpus1 := if promoted then corpus ++ [payload] else corpus
  let store2 := if promoted then boost_seed store1 sid (1/2) else store1
  ⟨payload, validFlag && exec_success, detected, similarity, reward, corpus1, store2, b1⟩

/-! ## Helper lemmas -/

theorem collapseWsGo_nil (fuel : Nat) : collapseWsGo fuel [] = [] := by
  cases fuel <;> rfl

theorem collapseWs_allspace (t : List Char) (h : ∀ c ∈ t, pyIsSpace c = true) :
    collapseWs t = [] ∨ collapseWs t = [' '] := by
  cases t with
  | nil => exact Or.inl rfl
  | cons c cs =>
    right
    have hc : pyIsSpace c = true := h c (by simp)
    have hdrop : cs.dropWhile pyIsSpace = [] :=
      List.dropWhile_eq_nil_iff.mpr (fun x hx => h x (by simp [hx]))
    unfold collapseWs
    simp only [List.length_cons]
    unfold collapseWsGo
    rw [if_pos hc, hdrop, collapseWsGo_nil]

theorem canonicalize_allspace (s : List Char) (h : ∀ c ∈ s, pyIsSpace c = true) :
    canonicalize_payload s = [] := by
  have hf : ∀ c ∈ s.filter (fun c => c ≠ '^'), pyIsSpace c = true :=
    fun c hc => h c (List.mem_of_mem_filter hc)
  show List.map Char.toLower (stripWs (collapseWs (s.filter (fun c => c ≠ '^')))) = []
  rcases collapseWs_allspace _ hf with hcol | hcol <;> rw [hcol] <;> rfl

theorem containsSub_nil (k : List Char) (hk : k ≠ []) : containsSub k [] = false := by
  cases k with
  | nil => exact absurd rfl hk
  | cons a as => rfl

/-! ## C8: recoding correctness -/

/-- C8: applying the recoding evasion technique to a payload containing the
dotted-decimal substring "127.0.0.1" replaces it with the exact decimal
string "2130706433", and applying it to one containing "192.168.1.1"
replaces it with "3232235777"; each decimal equals the big-endian 32-bit
value of the four octets. -/
theorem recoding_correctness :
    apply_recoding (chars "ping 127.0.0.1") = chars "ping 2130706433" ∧
    apply_recoding (chars "curl http://192.168.1.1/") = chars "curl http://3232235777/" ∧
    2130706433 = ((127 <<< 24) + (0 <<< 16) + (0 <<< 8) + 1 : Nat) ∧
    3232235777 = ((192 <<< 24) + (168 <<< 16) + (1 <<< 8) + 1 : Nat) := by
  refine ⟨?_, ?_, ?_, ?_⟩ <;> decide

/-! ## C9: full check implies quick check -/

/-- C9: for every grammar-derived validator, payload and length bound, a
payload passing the full check also passes the quick check. -/
theorem full_check_implies_quick_check (v : Validator) (p : List Char) (L : Nat)
    (h : full_check v p L = true) : quick_check v p = true := by
  unfold full_check at h
  split at h
  · exact absurd h (by simp)
  · cases hall : v.keywords.all
        (fun k => containsSub k (normalize_for_matching (canonicalize_payload p))) with
    | false => simp [hall] at h
    | true =>
      unfold quick_check
      split
      · rfl
      · exact hall

/-- Witness for C9 at a concrete validator and payload. -/
theorem full_check_implies_quick_check_witness :
    full_check (mkValidator ⟨.strVal (chars "net"), none, none⟩) (chars "net start") 100 = true ∧
    quick_check (mkValidator ⟨.strVal (chars "net"), none, none⟩) (chars "net start") = true :=
  ⟨by decide, full_check_implies_quick_check _ _ 100 (by decide)⟩

/-! ## C4: quick check on missing keywords and on blank input -/

/-- C4 counterexample: with a grammar declaring no keyword constraint, the
quick check returns true on the empty and on a whitespace-only string, so
the claim that every grammar rejects blank input is false. -/
theorem quick_check_blank_input_cex :
    quick_check (mkValidator ⟨.absent, none, none⟩) (chars "") = true ∧
    quick_check (mkValidator ⟨.absent, none, none⟩) (chars "   ") = true := by
  exact ⟨rfl, by decide⟩

/-- C4 (amended): the quick check returns true whenever the validator has no
keywords (even on blank input); and whenever some required keyword is a
nonempty string, the quick check returns false on every input consisting
only of whitespace (the empty string included). -/
theorem quick_check_keywords_behavior :
    (∀ (v : Validator) (s : List Char), v.keywords = [] → quick_check v s = true) ∧
    (∀ (v : Validator) (s : List Char), (∀ c ∈ s, pyIsSpace c = true) →
      (∃ k ∈ v.keywords, k ≠ []) → quick_check v s = false) := by
  constructor
  · intro v s hv
    unfold quick_check
    rw [hv]
    rfl
  · rintro v s hs ⟨k, hk, hkne⟩
    unfold quick_check
    have hne : v.keywords.isEmpty = false := by
      cases hkw : v.keywords with
      | nil => rw [hkw] at hk; exact absurd hk (by simp)
      | cons a as => rfl
    rw [hne]
    simp only [Bool.false_eq_true, if_false]
    refine List.all_eq_false.mpr ⟨k, hk, ?_⟩
    rw [canonicalize_allspace s hs]
    rw [show normalize_for_matching [] = [] from rfl, containsSub_nil k hkne]
    simp

/-- Witness for C4 (amended): both conjuncts applied at concrete inputs. -/
theorem quick_check_keywords_behavior_witness :
    quick_check ⟨[], none⟩ (chars "x") = true ∧
    quick_check (mkValidator ⟨.strVal (chars "net"), none, none⟩) (chars " ") = false :=
  ⟨quick_check_keywords_behavior.1 ⟨[], none⟩ (chars "x") rfl,
   quick_check_keywords_behavior.2 (mkValidator ⟨.strVal (chars "net"), none, none⟩)
     (chars " ") (by decide) ⟨chars "net", by decide, by decide⟩⟩

/-! ## C6: seed store error behavior -/

/-- C6 counterexample: updating or boosting a seed id not present in the
store raises nothing — both operations return, leaving every seed unchanged
— so the claim that they raise an error is false. -/
theorem seed_store_unknown_id_cex :
    update_seed [seedOfString 0 (chars "net start Spooler")] (chars "missing") 1
      = [seedOfString 0 (chars "net start Spooler")] ∧
    boost_seed [seedOfString 0 (chars "net start Spooler")] (chars "missing") (2/5)
      = [seedOfString 0 (chars "net start Spooler")] :=
  ⟨rfl, rfl⟩

/-- C6 (amended): selecting from an empty store raises
ValueError("No seeds available"); updating or boosting with a seed id not
present in the store raises no error and is a silent no-op, returning the
store unchanged. -/
theorem seed_store_error_behavior :
    (∀ (explore : Bool) (pickIdx : Nat),
      select_seed_epsilon [] explore pickIdx = .error "No seeds available") ∧
    (∀ (seeds : List Seed) (sid : List Char) (reward : ℚ),
      (∀ s ∈ seeds, s.id ≠ sid) → update_seed seeds sid reward = seeds) ∧
    (∀ (seeds : List Seed) (sid : List Char) (scale : ℚ),
      (∀ s ∈ seeds, s.id ≠ sid) → boost_seed seeds sid scale = seeds) := by
  refine ⟨fun _ _ => rfl, ?_, ?_⟩
  · intro seeds sid reward h
    induction seeds with
    | nil => rfl
    | cons s rest ih =>
      unfold update_seed
      rw [if_neg (h s (by simp)), ih (fun x hx => h x (by simp [hx]))]
  · intro seeds sid scale h
    induction seeds with
    | nil => rfl
    | cons s rest ih =>
      unfold boost_seed
      rw [if_neg (h s (by simp)), ih (fun x hx => h x (by simp [hx]))]

/-- Witness for C6 (amended) at a concrete store and unknown id. -/
theorem seed_store_error_behavior_witness :
    select_seed_epsilon [] true 0 = .error "No seeds available" ∧
    update_seed [seedOfString 0 (chars "x")] (chars "zz") 1 = [seedOfString 0 (chars "x")] ∧
    boost_seed [seedOfString 0 (chars "x")] (chars "zz") (2/5) = [seedOfString 0 (chars "x")] :=
  ⟨seed_store_error_behavior.1 true 0,
   seed_store_error_behavior.2.1 _ _ 1 (by decide),
   seed_store_error_behavior.2.2 _ _ (2/5) (by decide)⟩

/-! ## C7: omission idempotence -/

/-- C7 counterexample: on a payload naming two different executables the
omission technique strips only the first listed name per application, so a
second application strips further and the result differs. -/
theorem omission_idempotence_cex :
    apply_omission (apply_omission (chars "net.exe sc.exe")) ≠
      apply_omission (chars "net.exe sc.exe") := by
  decide

/-- C7 (amended): applying omission twice yields the same result as applying
it once for every payload whose once-transformed form no longer contains
(case-insensitively) any of the listed executable names; in general a second
application may strip a further name. -/
theorem omission_idempotent_when_clean (p : List Char)
    (h : executables.find?
      (fun exe => containsSub exe ((apply_omission p).map Char.toLower)) = none) :
    apply_omission (apply_omission p) = apply_omission p := by
  set q := apply_omission p with hq
  show apply_omission q = q
  unfold apply_omission
  rw [h]

/-- Witness for C7 (amended) at a concrete payload with one executable. -/
theorem omission_idempotent_when_clean_witness :
    executables.find?
      (fun exe => containsSub exe
        ((apply_omission (chars "powershell.exe -ep bypass")).map Char.toLower)) = none ∧
    apply_omission (apply_omission (chars "powershell.exe -ep bypass"))
      = apply_omission (chars "powershell.exe -ep bypass") :=
  ⟨by decide, omission_idempotent_when_clean _ (by decide)⟩

/-! ## C10: seed id uniqueness -/

theorem parseNat_append_digit (xs : List Char) (c : Char) :
    parseNat (xs ++ [c]) = 10 * parseNat xs + (c.toNat - 48) := by
  unfold parseNat
  rw [List.foldl_append]
  rfl

theorem digitChar_val (d : Nat) (hd : d < 10) :
    (Char.ofNat (48 + d)).toNat - 48 = d := by
  interval_cases d <;> decide

theorem parseNat_natToCharsGo (fuel n : Nat) (h : n < 10 ^ fuel) :
    parseNat (natToCharsGo fuel n) = n := by
  induction fuel generalizing n with
  | zero =>
    interval_cases n
    rfl
  | succ fuel ih =>
    unfold natToCharsGo
    by_cases hn : n < 10
    · rw [if_pos hn]
      show parseNat ([] ++ [Char.ofNat (48 + n)]) = n
      rw [parseNat_append_digit, digitChar_val n hn]
      simp [parseNat]
    · rw [if_neg hn, parseNat_append_digit, ih (n / 10) ?_, digitChar_val _ (Nat.mod_lt n (by norm_num))]
      · exact Nat.div_add_mod n 10
      · rw [Nat.div_lt_iff_lt_mul (by norm_num)]
        calc n < 10 ^ (fuel + 1) := h
        _ = 10 ^ fuel * 10 := by rw [pow_succ]

theorem parseNat_natToChars (n : Nat) : parseNat (natToChars n) = n := by
  refine parseNat_natToCharsGo (n + 1) n (lt_of_lt_of_le (Nat.lt_two_pow n) ?_)
  calc (2:ℕ) ^ n ≤ 10 ^ n := Nat.pow_le_pow_left (by norm_num) n
  _ ≤ 10 ^ (n + 1) := Nat.pow_le_pow_right (by norm_num) (Nat.le_succ n)

theorem mkId_injective : Function.Injective mkId := by
  intro a b hab
  have h2 : natToChars a = natToChars b := by
    have := List.append_cancel_left hab
    exact this
  have := congrArg parseNat h2
  rwa [parseNat_natToChars, parseNat_natToChars] at this

/-- C10 counterexample: two input seed records carrying the same explicit id
produce a store with duplicate seed ids — the constructor performs no
uniqueness check — so the uniqueness claim is false for record inputs. -/
theorem seed_id_uniqueness_cex :
    ¬ ((mkSeedStore (.dicts
        [⟨some (chars "a"), chars "x", none, none, none, none, none⟩,
         ⟨some (chars "a"), chars "y", none, none, none, none, none⟩])).map Seed.id).Nodup := by
  decide

/-- C10 (amended): for a flat list of plain string seeds the generated ids
seed_1, seed_2, ... are unique within the store, and update/boost operations
never change any seed's id (so they preserve whatever uniqueness holds);
record inputs carrying their own ids are stored without any uniqueness
check, so duplicate or colliding explicit ids survive construction. -/
theorem seed_id_unique_strs_and_preserved :
    (∀ l : List (List Char), ((mkSeedStore (.strs l)).map Seed.id).Nodup) ∧
    (∀ (seeds : List Seed) (sid : List Char) (reward : ℚ),
      (update_seed seeds sid reward).map Seed.id = seeds.map Seed.id) ∧
    (∀ (seeds : List Seed) (sid : List Char) (scale : ℚ),
      (boost_seed seeds sid scale).map Seed.id = seeds.map Seed.id) := by
  refine ⟨?_, ?_, ?_⟩
  · intro l
    have hids : (mkSeedStore (.strs l)).map Seed.id
        = (List.range l.length).map (fun i => mkId (i + 1)) := by
      show (l.enum.map (fun p => seedOfString p.1 p.2)).map Seed.id
          = (List.range l.length).map (fun i => mkId (i + 1))
      rw [List.map_map]
      have : (Seed.id ∘ fun p : Nat × List Char => seedOfString p.1 p.2)
          = (fun i => mkId (i + 1)) ∘ Prod.fst := rfl
      rw [this, ← List.map_map, List.enum_map_fst]
    rw [hids]
    exact (List.nodup_range l.length).map
      (fun a b hab => by simpa using mkId_injective hab)
  · intro seeds sid reward
    induction seeds with
    | nil => rfl
    | cons s rest ih =>
      unfold update_seed
      by_cases hs : s.id = sid
      · rw [if_pos hs]; rfl
      · rw [if_neg hs]
        simp [ih]
  · intro seeds sid scale
    induction seeds with
    | nil => rfl
    | cons s rest ih =>
      unfold boost_seed
      by_cases hs : s.id = sid
      · rw [if_pos hs]; rfl
      · rw [if_neg hs]
        simp [ih]

/-! ## C3: reward bounds and the invalid penalty -/

/-- C3 counterexample: with the default weights, an undetected payload with
similarity 0 and caller-supplied novelty 10 clamps the reward to 1 both with
and without the invalid penalty, so flipping invalid from false to true does
not strictly decrease the reward. -/
theorem reward_strict_decrease_cex :
    compute default_weights false 0 10 true = compute default_weights false 0 10 false := by
  norm_num [compute, default_weights]

set_option maxHeartbeats 1000000 in
/-- C3 (amended): the returned reward always lies in [-1, 1]; with the
default weights, flipping invalid from false to true never increases the
reward, and strictly decreases it whenever similarity and novelty both lie
in [0, 1]; for novelty large enough that both raw values clamp, the two
rewards can coincide. -/
theorem reward_bounds_and_invalid_penalty :
    (∀ (w : Weights) (d : Bool) (s nov : ℚ) (inv : Bool),
      -1 ≤ compute w d s nov inv ∧ compute w d s nov inv ≤ 1) ∧
    (∀ (d : Bool) (s nov : ℚ), 0 ≤ s → s ≤ 1 → 0 ≤ nov → nov ≤ 1 →
      compute default_weights d s nov true < compute default_weights d s nov false) ∧
    (∀ (d : Bool) (s nov : ℚ),
      compute default_weights d s nov true ≤ compute default_weights d s nov false) := by
  refine ⟨?_, ?_, ?_⟩
  · intro w d s nov inv
    unfold compute
    constructor <;> dsimp only <;> split_ifs <;> linarith
  · intro d s nov hs0 hs1 hn0 hn1
    cases d
    all_goals simp only [compute, default_weights, Bool.false_eq_true, if_true, if_false,
      ite_true, ite_false]
    all_goals split_ifs
    all_goals linarith
  · intro d s nov
    cases d
    all_goals simp only [compute, default_weights, Bool.false_eq_true, if_true, if_false,
      ite_true, ite_false]
    all_goals split_ifs
    all_goals linarith

/-- Witness for C3 (amended) at concrete inputs. -/
theorem reward_bounds_and_invalid_penalty_witness :
    (-1 ≤ compute default_weights true (1/2) 10 true ∧
      compute default_weights true (1/2) 10 true ≤ 1) ∧
    compute default_weights false (1/2) (1/2) true
      < compute default_weights false (1/2) (1/2) false :=
  ⟨reward_bounds_and_invalid_penalty.1 default_weights true (1/2) 10 true,
   reward_bounds_and_invalid_penalty.2.1 false (1/2) (1/2)
     (by norm_num) (by norm_num) (by norm_num) (by norm_num)⟩

/-! ## C1: bandit mean invariant -/

theorem bandit_foldl_update (arm : String) (rs : List ℚ) (b : Bandit) :
    ((rs.foldl (fun acc r => acc.update arm r) b).n arm = b.n arm + rs.length) ∧
    (0 < b.n arm + rs.length →
      (rs.foldl (fun acc r => acc.update arm r) b).q arm
        = (b.q arm * (b.n arm : ℚ) + rs.sum) / ((b.n arm : ℚ) + (rs.length : ℚ))) := by
  induction rs generalizing b with
  | nil =>
    refine ⟨by simp, ?_⟩
    intro h
    have hb : (b.n arm : ℚ) ≠ 0 := by
      have : (0 : ℚ) < (b.n arm : ℚ) := by exact_mod_cast (by simpa using h)
      exact ne_of_gt this
    simp only [List.foldl_nil, List.sum_nil, List.length_nil, Nat.cast_zero]
    rw [add_zero, add_zero]
    field_simp
  | cons r rs ih =>
    obtain ⟨ihn, ihq⟩ := ih (b.update arm r)
    have hbn : (b.update arm r).n arm = b.n arm + 1 := by simp [Bandit.update]
    have hbq : (b.update arm r).q arm
        = b.q arm + (r - b.q arm) / ((b.n arm : ℚ) + 1) := by simp [Bandit.update]
    constructor
    · simpa [hbn, Nat.add_assoc, Nat.add_comm 1 rs.length] using ihn
    · intro _
      rw [List.foldl_cons, ihq (by omega)]
      rw [hbn, hbq]
      push_cast
      have h1 : ((b.n arm : ℚ) + 1) ≠ 0 := by positivity
      have h2 : ((b.n arm : ℚ) + 1 + (rs.length : ℚ)) ≠ 0 := by positivity
      have h3 : ((b.n arm : ℚ) + ((rs.length : ℚ) + 1)) ≠ 0 := by positivity
      field_simp
      ring

/-- C1: for every collection of arms, every initial prior, every arm and
every nonempty reward sequence, folding the incremental update over the
sequence leaves that arm's value at the arithmetic mean of the rewards and
its pull count at the sequence length. -/
theorem bandit_mean_invariant (arms : List String) (q_init : ℚ) (arm : String)
    (rs : List ℚ) (h : rs ≠ []) :
    ((rs.foldl (fun acc r => acc.update arm r) (mkBandit arms q_init)).q arm
      = rs.sum / (rs.length : ℚ)) ∧
    ((rs.foldl (fun acc r => acc.update arm r) (mkBandit arms q_init)).n arm
      = rs.length) := by
  have hlen : 0 < rs.length := List.length_pos.mpr h
  obtain ⟨hn, hq⟩ := bandit_foldl_update arm rs (mkBandit arms q_init)
  have hn0 : (mkBandit arms q_init).n arm = 0 := rfl
  have hq0 : (mkBandit arms q_init).q arm = q_init := rfl
  rw [hn0] at hn hq
  constructor
  · rw [hq (by omega), hq0]
    push_cast
    ring_nf
  · simpa using hn

/-- Witness for C1 at a concrete two-element reward sequence. -/
theorem bandit_mean_invariant_witness :
    ([(1 : ℚ), 2] ≠ []) ∧
    (([(1 : ℚ), 2].foldl (fun acc r => acc.update "g1" r) (mkBandit ["g1"] (1/10))).q "g1"
      = ([(1 : ℚ), 2].sum / (([(1 : ℚ), 2].length : ℚ)))) ∧
    (([(1 : ℚ), 2].foldl (fun acc r => acc.update "g1" r) (mkBandit ["g1"] (1/10))).n "g1"
      = [(1 : ℚ), 2].length) :=
  ⟨by simp,
   (bandit_mean_invariant ["g1"] (1/10) "g1" [1, 2] (by simp)).1,
   (bandit_mean_invariant ["g1"] (1/10) "g1" [1, 2] (by simp)).2⟩

/-! ## C2: only validated, undetected payloads enter the successful corpus -/

/-- C2: every string in the corpus after a generate_one step was already in
the corpus before, or is the step's payload, passed the full check against
the maximum payload length, and was reported undetected by the detector. -/
theorem corpus_successful_validated (v : Validator) (max_len : Nat)
    (execOk : List Char → Bool) (siem : List Char → Bool × ℚ)
    (store : List Seed) (sid : List Char) (applied : List String) (b : Bandit)
    (corpus : List (List Char)) (payload : List Char) (x : List Char)
    (hx : x ∈ (generate_one v max_len execOk siem store sid applied b corpus payload).corpus) :
    x ∈ corpus ∨
      (x = payload ∧ full_check v payload max_len = true ∧ (siem payload).1 = false) := by
  unfold generate_one at hx
  dsimp only at hx
  by_cases hpromo : (full_check v payload max_len && execOk payload)
      && !((full_check v payload max_len && execOk payload) && (siem payload).1)
  · rw [if_pos hpromo] at hx
    rcases List.mem_append.mp hx with hin | hnew
    · exact Or.inl hin
    · refine Or.inr ⟨List.mem_singleton.mp hnew, ?_, ?_⟩
      · have := (Bool.and_eq_true _ _).mp ((Bool.and_eq_true _ _).mp hpromo).1
        exact this.1
      · have hexec := ((Bool.and_eq_true _ _).mp hpromo).1
        have hnot := ((Bool.and_eq_true _ _).mp hpromo).2
        rw [Bool.not_eq_true'] at hnot
        cases hdet : (siem payload).1
        · rfl
        · rw [hexec, hdet] at hnot
          simp at hnot
  · rw [if_neg hpromo] at hx
    exact Or.inl hx

/-- Witness for C2 with a stub detector that never detects. -/
theorem corpus_successful_validated_witness :
    chars "pay" ∈ (generate_one ⟨[], none⟩ 100 (fun _ => true) (fun _ => (false, 1/5))
      [] (chars "s") [] (mkBandit [] (1/10)) [] (chars "pay")).corpus ∧
    (chars "pay" ∈ ([] : List (List Char)) ∨
      (chars "pay" = chars "pay" ∧
        full_check ⟨[], none⟩ (chars "pay") 100 = true ∧
        ((fun _ : List Char => ((false : Bool), (1/5 : ℚ))) (chars "pay")).1 = false)) :=
  ⟨by decide,
   corpus_successful_validated ⟨[], none⟩ 100 (fun _ => true) (fun _ => (false, 1/5))
     [] (chars "s") [] (mkBandit [] (1/10)) [] (chars "pay") (chars "pay") (by decide)⟩

/-! ## C5: pattern-based operator dispatch on the declarative sample -/

theorem firstToken_decomp (p : List Char) :
    firstTokenPre p ++ (firstToken p ++ afterFirstToken p) = p := by
  unfold firstTokenPre firstToken afterFirstToken
  rw [List.takeWhile_append_dropWhile, List.takeWhile_append_dropWhile]

/-- C5: for every operator that is not an evasion technique, the registry
application reduces to the pattern-based transformation, which dispatches
purely on the declarative sample: caret in the sample inserts a caret inside
the first executable-like token (increasing the payload's caret count by
exactly one when a first token exists); otherwise a fully quoted sample
wraps that token in quotes; otherwise an all-uppercase sample uppercases it;
and when no heuristic matches the payload is returned unchanged. -/
theorem apply_operator_sample_dispatch (evasion : List Char → List Char → List Char)
    (op_name sample payload : List Char) (h : op_name ∉ evasionNames) :
    (apply_operator evasion op_name sample payload = apply_pattern_operator sample payload) ∧
    (sampleHasCaret sample = true →
      apply_operator evasion op_name sample payload = onFirstToken caretInsert payload ∧
      (firstToken payload ≠ [] →
        (apply_operator evasion op_name sample payload).count '^' = payload.count '^' + 1)) ∧
    (sampleHasCaret sample = false → sampleFullyQuoted sample = true →
      apply_operator evasion op_name sample payload = onFirstToken quoteWrap payload) ∧
    (sampleHasCaret sample = false → sampleFullyQuoted sample = false →
      sampleAllUpper sample = true →
      apply_operator evasion op_name sample payload = onFirstToken upperTok payload) ∧
    (sampleHasCaret sample = false → sampleFullyQuoted sample = false →
      sampleAllUpper sample = false →
      apply_operator evasion op_name sample payload = payload) := by
  have hreg : apply_operator evasion op_name sample payload
      = apply_pattern_operator sample payload := by
    unfold apply_operator
    rw [if_neg h]
  refine ⟨hreg, ?_, ?_, ?_, ?_⟩
  · intro hc
    have hres : apply_operator evasion op_name sample payload
        = onFirstToken caretInsert payload := by
      rw [hreg]
      unfold apply_pattern_operator
      rw [if_pos hc]
    refine ⟨hres, ?_⟩
    intro htok
    rw [hres]
    unfold onFirstToken
    rw [if_neg htok]
    cases ht : firstToken payload with
    | nil => exact absurd ht htok
    | cons a as =>
      have hdecomp := firstToken_decomp payload
      rw [ht] at hdecomp
      conv_rhs => rw [← hdecomp]
      simp [caretInsert, List.count_append, List.count_cons]
      omega
  · intro hc hqt
    rw [hreg]
    unfold apply_pattern_operator
    rw [if_neg (by simp [hc]), if_pos hqt]
  · intro hc hqt hup
    rw [hreg]
    unfold apply_pattern_operator
    rw [if_neg (by simp [hc]), if_neg (by simp [hqt]), if_pos hup]
  · intro hc hqt hup
    rw [hreg]
    unfold apply_pattern_operator
    rw [if_neg (by simp [hc]), if_neg (by simp [hqt]), if_neg (by simp [hup])]

/-- Witness for C5: a non-evasion operator with a caret sample applied to a
concrete payload. -/
theorem apply_operator_sample_dispatch_witness :
    (chars "caret_insert" ∉ evasionNames) ∧
    apply_operator (fun _ p => p) (chars "caret_insert") (chars "ne^t") (chars "net start")
      = apply_pattern_operator (chars "ne^t") (chars "net start") :=
  ⟨by decide,
   (apply_operator_sample_dispatch (fun _ p => p) (chars "caret_insert")
     (chars "ne^t") (chars "net start") (by decide)).1⟩

end SiemFuzzer
